import Mathlib

/-!
# Verification of `fast-blur` (fast box blur via summed-area tables)

Shallow embedding of `src/fast_blur.c` (and the Image Store interface of
`src/ppmFile.h`) in Lean 4, together with theorems settling the claims
about the program.

Modelling conventions:
* C `int` values are modelled as `Int` (unbounded); where overflow of the
  32-bit type matters we state the bound `2^31 - 1` explicitly.
* The three per-channel summed-area tables `sums_r`, `sums_g`, `sums_b` are
  `malloc`ed and never zeroed; phase 1 writes only columns `1 .. W-1` of each
  row and phase 2 only accumulates existing cells, so the cells of column 0
  keep their initial (indeterminate) contents.  The embedding therefore
  takes an explicit parameter `g : Nat → Nat → Int` for the initial contents
  of a table; the program's behaviour is a function of `g`.
* A 2-D table cell `sums[idx(row, col, W, 1)]` is modelled as a function
  application `T row col`; the flat index map `idx` is injective on
  in-bounds coordinates (proved below), so distinct cells never alias.
* The division `(float)(d - (b + c - a)) / pixels` assigned to an
  `unsigned char` is modelled as `Int.tdiv` (truncation toward zero); the
  floating-point intermediate is exact for the magnitudes where the `int`
  arithmetic itself is exact and small (below `2^24`).
-/

/-- `idx` from `fast_blur.c`: linear index of `(row, col)` in a row-major
array of width `width` with group size `g`. -/
def idx (row col width g : Nat) : Nat :=
  (row * width + col) * g

/-! ## Phase 1 and Phase 2 of the summed-area-table construction

`fast_blur.c`, lines 77-106.  Phase 1 (per row): for `col = 1 .. W-1`,
`sums[row][col] = ImageGetPixel(img_in, col, row, k) + sums[row][col-1]`.
The cell `sums[row][0]` is never written by either phase, so it keeps the
initial contents `g row 0` of the `malloc`ed buffer.
Phase 2 (per column): for `row = 1 .. H-1`,
`sums[row][col] += sums[row-1][col]`. -/

/-- Phase 1 (row-relative horizontal sum) of `fast_blur.c` (lines 77-87),
as the per-cell value after the phase.  `g` is the initial contents of the
`malloc`ed table and `pix row col` the 8-bit channel value read by
`ImageGetPixel(img_in, col, row, channel)`. -/
def phase1 (g : Nat → Nat → Int) (pix : Nat → Nat → Nat) (r : Nat) :
    Nat → Int
  | 0 => g r 0
  | c + 1 => (pix r (c + 1) : Int) + phase1 g pix r c

/-- Phase 2 (vertical accumulation) of `fast_blur.c` (lines 99-106), as the
per-cell value after the phase, given the table `T` left by phase 1. -/
def phase2 (T : Nat → Nat → Int) : Nat → Nat → Int
  | 0, c => T 0 c
  | r + 1, c => T (r + 1) c + phase2 T r c

/-- The summed-area table actually computed by the program: phase 2 applied
to the result of phase 1, starting from initial buffer contents `g`. -/
def satTable (g : Nat → Nat → Int) (pix : Nat → Nat → Nat) (r c : Nat) :
    Int :=
  phase2 (phase1 g pix) r c

/-- The specified summed-area-table contents (spec §3): the inclusive prefix
sum of the pixel values over the rectangle from the origin to `(r, c)`. -/
def specPrefixSum (pix : Nat → Nat → Nat) (r c : Nat) : Int :=
  ∑ i ∈ Finset.range (r + 1), ∑ j ∈ Finset.range (c + 1), (pix i j : Int)

/-! ## The per-pixel averaging step (WindowAverager)

`fast_blur.c`, lines 109-168.  Coordinates are C `int`s, modelled as `Int`.
The table lookups `sums_color[idx(y, x, W, 1)]` only happen at provably
non-negative indices, so converting to `Nat` via `Int.toNat` is faithful. -/

/-- The per-pixel clamped bounding box (spec §3), exactly as computed at
lines 113-116 of `fast_blur.c`. -/
structure BoundingBox where
  x_min : Int
  x_max : Int
  y_min : Int
  y_max : Int
deriving Repr, DecidableEq

/-- `fast_blur.c` lines 113-116: the corner coordinates of the square
surrounding pixel `(row, col)` for radius `R`, clamped with the `min`/`max`
macros. -/
def boundingBox (W H : Nat) (R row col : Int) : BoundingBox :=
  { x_min := max (col - R) 0
    x_max := min (col + R) ((W : Int) - 1)
    y_min := max (row - R) 0
    y_max := min (row + R) ((H : Int) - 1) }

/-- `fast_blur.c` line 119: the number of pixels in the square,
`(x_max - (x_min - 1)) * (y_max - (y_min - 1))`. -/
def pixelsInBox (bb : BoundingBox) : Int :=
  (bb.x_max - (bb.x_min - 1)) * (bb.y_max - (bb.y_min - 1))

/-- `fast_blur.c` lines 150-152: corner value `a`, read from the table at
`(y_min - 1, x_min - 1)` unless `y_min < 1 || x_min < 1`. -/
def cornerA (T : Nat → Nat → Int) (bb : BoundingBox) : Int :=
  if bb.y_min < 1 ∨ bb.x_min < 1 then 0
  else T (bb.y_min - 1).toNat (bb.x_min - 1).toNat

/-- `fast_blur.c` lines 153-155: corner value `b`, read from the table at
`(y_min - 1, x_max)` unless `y_min < 1`. -/
def cornerB (T : Nat → Nat → Int) (bb : BoundingBox) : Int :=
  if bb.y_min < 1 then 0
  else T (bb.y_min - 1).toNat bb.x_max.toNat

/-- `fast_blur.c` lines 156-158: corner value `c`, read from the table at
`(y_max, x_min - 1)` unless `x_min < 1`. -/
def cornerC (T : Nat → Nat → Int) (bb : BoundingBox) : Int :=
  if bb.x_min < 1 then 0
  else T bb.y_max.toNat (bb.x_min - 1).toNat

/-- `fast_blur.c` line 159: corner value `d`, read from the table at
`(y_max, x_max)`. -/
def cornerD (T : Nat → Nat → Int) (bb : BoundingBox) : Int :=
  T bb.y_max.toNat bb.x_max.toNat

/-- `fast_blur.c` line 162: the windowed sum `d - (b + c - a)`. -/
def windowSum (T : Nat → Nat → Int) (bb : BoundingBox) : Int :=
  cornerD T bb - (cornerB T bb + cornerC T bb - cornerA T bb)

/-- `fast_blur.c` line 162: the blurred value
`(float)(d - (b + c - a)) / pixels`, truncated toward zero by the
assignment to `unsigned char`.  Modelled as truncating integer division
(`Int.tdiv`); the floating-point intermediate is exact at these magnitudes. -/
def blurValue (W H : Nat) (T : Nat → Nat → Int) (R row col : Int) : Int :=
  Int.tdiv (windowSum T (boundingBox W H R row col))
    (pixelsInBox (boundingBox W H R row col))

/-- Conversion of the truncated quotient to the `unsigned char` stored by
`ImageSetPixel`; the identity on the range `0..255`, which is the only
defined-behaviour range of the C conversion. -/
def toByte (v : Int) : Nat :=
  v.toNat

/-! ## Spec-side definitions (for refinement comparisons)

These follow the words of the spec (§4.2, §8), not the code. -/

/-- Windowed sum as the spec §4.2 words it: four corner lookups with the
`or 0 if y_min == 0` / `x_min == 0` conditions, combined as
`d - b - c + a`. -/
def windowSumSpec (T : Nat → Nat → Int) (bb : BoundingBox) : Int :=
  let a := if bb.y_min = 0 ∨ bb.x_min = 0 then 0
    else T (bb.y_min - 1).toNat (bb.x_min - 1).toNat
  let b := if bb.y_min = 0 then 0 else T (bb.y_min - 1).toNat bb.x_max.toNat
  let c := if bb.x_min = 0 then 0 else T bb.y_max.toNat (bb.x_min - 1).toNat
  let d := T bb.y_max.toNat bb.x_max.toNat
  d - b - c + a

/-- Window pixel count as the spec §4.2 words it:
`(x_max - x_min + 1) × (y_max - y_min + 1)`. -/
def pixelCountSpec (bb : BoundingBox) : Int :=
  (bb.x_max - bb.x_min + 1) * (bb.y_max - bb.y_min + 1)

/-- The averaged value as the spec §4.2 words it: the windowed sum divided
by the pixel count, truncated toward zero. -/
def blurValueSpec (W H : Nat) (T : Nat → Nat → Int) (R row col : Int) : Int :=
  Int.tdiv (windowSumSpec T (boundingBox W H R row col))
    (pixelCountSpec (boundingBox W H R row col))

/-- Brute-force windowed pixel sum (spec §8, brute-force equivalence): the
direct sum of all input pixel values inside the clamped window. -/
def bruteWindowSum (W H : Nat) (pix : Nat → Nat → Nat) (R row col : Int) :
    Int :=
  let bb := boundingBox W H R row col
  ∑ i ∈ Finset.Icc bb.y_min bb.y_max, ∑ j ∈ Finset.Icc bb.x_min bb.x_max,
    (pix i.toNat j.toNat : Int)

/-- Brute-force average (spec §8): the brute-force windowed sum divided by
the window pixel count, truncated exactly like the reference. -/
def bruteAvg (W H : Nat) (pix : Nat → Nat → Nat) (R row col : Int) : Int :=
  Int.tdiv (bruteWindowSum W H pix R row col)
    (pixelsInBox (boundingBox W H R row col))

/-- Global per-channel average over the whole image (spec §8, saturation
property), with the same truncating division as the reference. -/
def globalAverage (W H : Nat) (pix : Nat → Nat → Nat) : Int :=
  Int.tdiv (∑ i ∈ Finset.range H, ∑ j ∈ Finset.range W, (pix i j : Int))
    ((W : Int) * (H : Int))

/-! ## The Image Store (`ppmFile.h`)

`src/ppmFile.h` only declares the accessors; their implementation
(`ppmFile.c`) is not part of the sources, so they are modelled from the
spec's Image Store contract (§2, §6). -/

/-- Modelled from the spec: the Image owned by the external Image Store —
width `W > 0`, height `H > 0`, and for each of 3 channels a `W×H` grid of
8-bit values.  `data x y chan` is the channel value at position `(x, y)`. -/
structure Image where
  width : Nat
  height : Nat
  data : Nat → Nat → Nat → Nat

/-- Modelled from the spec: `get_channel(x, y, channel) -> byte`
(`ImageGetPixel` in `ppmFile.h`). -/
def ImageGetPixel (img : Image) (x y chan : Nat) : Nat :=
  img.data x y chan

/-- Modelled from the spec: `set_channel(x, y, channel, value)`
(`ImageSetPixel` in `ppmFile.h`): overwrite one channel of one pixel,
leaving the rest of the image unchanged. -/
def ImageSetPixel (img : Image) (x y chan : Nat) (val : Nat) : Image :=
  { img with
    data := fun a b k => if a = x ∧ b = y ∧ k = chan then val else img.data a b k }

/-- Modelled from the spec: `ImageCreate(width, height)` allocates a fresh
image of the specified dimensions.  Its pixel contents are unspecified
(modelled as 0); the blur pass overwrites every cell before the image is
written out. -/
def ImageCreate (width height : Nat) : Image :=
  { width := width, height := height, data := fun _ _ _ => 0 }

/-! ## The whole transform (`main`, lines 53-177)

The averaging loop nest (lines 109-168) writes `s` for every
`(row, col, color)` with `row < H`, `col < W`, `color < 3` into `img_out`;
each channel `color` uses its own table `sums_color` built from its own
`malloc`ed buffer (`g color`). -/

/-- The averaging loop nest of `main` (lines 109-168): for each row, column
and color channel, store the blurred value into the output image via
`ImageSetPixel(img_out, col, row, color, s)`. -/
def blurPass (W H : Nat) (tbl : Nat → Nat → Nat → Int) (R : Int)
    (img_out : Image) : Image :=
  (List.range H).foldl
    (fun acc₁ row =>
      (List.range W).foldl
        (fun acc₂ col =>
          (List.range 3).foldl
            (fun acc₃ color =>
              ImageSetPixel acc₃ col row color
                (toByte (blurValue W H (tbl color) R row col)))
            acc₂)
        acc₁)
    img_out

/-- The whole program state after `main` (minus file I/O): given the input
image, the radius and the initial contents `g color` of the three `malloc`ed
sum buffers, return the pair (input image as left behind, output image).
The input is only ever read (`ImageGetPixel(img_in, ...)`); all writes go to
the image freshly created by `ImageCreate(W, H)` (line 62). -/
def mainProgram (img_in : Image) (R : Int) (g : Nat → Nat → Nat → Int) :
    Image × Image :=
  let H := img_in.height
  let W := img_in.width
  let img_out := ImageCreate W H
  let tbl : Nat → Nat → Nat → Int := fun color =>
    satTable (g color) (fun r c => ImageGetPixel img_in c r color)
  (img_in, blurPass W H tbl R img_out)

/-! ## Supporting lemmas -/

/-- The flat index map is injective on in-bounds coordinates (`col < width`),
so modelling the flat `sums_*` arrays as functions of `(row, col)` is
faithful: distinct cells never alias. -/
theorem idx_injective (width : Nat) (r₁ c₁ r₂ c₂ : Nat)
    (h₁ : c₁ < width) (h₂ : c₂ < width)
    (h : idx r₁ c₁ width 1 = idx r₂ c₂ width 1) : r₁ = r₂ ∧ c₁ = c₂ := by
  unfold idx at h
  simp only [Nat.mul_one] at h
  constructor
  · rcases Nat.lt_trichotomy r₁ r₂ with hlt | heq | hgt
    · exfalso
      have : r₁ * width + c₁ < r₂ * width + c₂ := by
        calc r₁ * width + c₁ < r₁ * width + width := by omega
        _ = (r₁ + 1) * width := by ring
        _ ≤ r₂ * width := Nat.mul_le_mul_right width hlt
        _ ≤ r₂ * width + c₂ := Nat.le_add_right _ _
      omega
    · exact heq
    · exfalso
      have : r₂ * width + c₂ < r₁ * width + c₁ := by
        calc r₂ * width + c₂ < r₂ * width + width := by omega
        _ = (r₂ + 1) * width := by ring
        _ ≤ r₁ * width := Nat.mul_le_mul_right width hgt
        _ ≤ r₁ * width + c₁ := Nat.le_add_right _ _
      omega
  · rcases Nat.lt_trichotomy r₁ r₂ with hlt | heq | hgt
    · exfalso
      have : r₁ * width + c₁ < r₂ * width + c₂ := by
        calc r₁ * width + c₁ < r₁ * width + width := by omega
        _ = (r₁ + 1) * width := by ring
        _ ≤ r₂ * width := Nat.mul_le_mul_right width hlt
        _ ≤ r₂ * width + c₂ := Nat.le_add_right _ _
      omega
    · subst heq; omega
    · exfalso
      have : r₂ * width + c₂ < r₁ * width + c₁ := by
        calc r₂ * width + c₂ < r₂ * width + width := by omega
        _ = (r₂ + 1) * width := by ring
        _ ≤ r₁ * width := Nat.mul_le_mul_right width hgt
        _ ≤ r₁ * width + c₁ := Nat.le_add_right _ _
      omega

theorem phase1_eq (g : Nat → Nat → Int) (pix : Nat → Nat → Nat)
    (r c : Nat) :
    phase1 g pix r c = g r 0 + ∑ j ∈ Finset.range c, (pix r (j + 1) : Int) := by
  induction c with
  | zero => simp [phase1]
  | succ c ih =>
      rw [phase1, ih, Finset.sum_range_succ]
      ring

theorem phase2_eq (T : Nat → Nat → Int) (r c : Nat) :
    phase2 T r c = ∑ i ∈ Finset.range (r + 1), T i c := by
  induction r with
  | zero => simp [phase2]
  | succ r ih =>
      rw [phase2, ih]
      conv_rhs => rw [Finset.sum_range_succ]
      ring

/-- Closed form of the table the program actually computes: each cell
`(r, c)` holds the accumulated initial column-0 contents of rows `0..r`
plus the pixel sums over rows `0..r` and columns `1..c` — the pixels of
column 0 are missing and the indeterminate initial values are present. -/
theorem satTable_eq (g : Nat → Nat → Int) (pix : Nat → Nat → Nat)
    (r c : Nat) :
    satTable g pix r c =
      (∑ i ∈ Finset.range (r + 1), g i 0) +
      ∑ i ∈ Finset.range (r + 1), ∑ j ∈ Finset.range c, (pix i (j + 1) : Int) := by
  unfold satTable
  rw [phase2_eq]
  have h : ∀ i ∈ Finset.range (r + 1),
      phase1 g pix i c = g i 0 + ∑ j ∈ Finset.range c, (pix i (j + 1) : Int) :=
    fun i _ => phase1_eq g pix i c
  rw [Finset.sum_congr rfl h, Finset.sum_add_distrib]

theorem boundingBox_x_min_nonneg (W H : Nat) (R row col : Int) :
    0 ≤ (boundingBox W H R row col).x_min :=
  le_max_right _ _

theorem boundingBox_y_min_nonneg (W H : Nat) (R row col : Int) :
    0 ≤ (boundingBox W H R row col).y_min :=
  le_max_right _ _

/-- The code's windowed sum `d - (b + c - a)` with the `< 1` guards equals
the spec's `d - b - c + a` with the `== 0` guards, for any bounding box with
non-negative clamped lower corners. -/
theorem windowSum_eq_spec (T : Nat → Nat → Int) (bb : BoundingBox)
    (hx : 0 ≤ bb.x_min) (hy : 0 ≤ bb.y_min) :
    windowSum T bb = windowSumSpec T bb := by
  have hy' : bb.y_min < 1 ↔ bb.y_min = 0 := by omega
  have hx' : bb.x_min < 1 ↔ bb.x_min = 0 := by omega
  simp only [windowSum, windowSumSpec, cornerA, cornerB, cornerC, cornerD,
    hy', hx']
  ring

/-- The code's pixel count `(x_max - (x_min - 1)) * (y_max - (y_min - 1))`
equals the spec's `(x_max - x_min + 1) * (y_max - y_min + 1)`. -/
theorem pixelsInBox_eq_spec (bb : BoundingBox) :
    pixelsInBox bb = pixelCountSpec bb := by
  unfold pixelsInBox pixelCountSpec
  ring

/-- C4: for every table, radius and pixel coordinate, the code's windowed
sum is the four-corner inclusion-exclusion combination `d - b - c + a` with
corner `a` zeroed when `y_min == 0` or `x_min == 0`, corner `b` zeroed when
`y_min == 0`, corner `c` zeroed when `x_min == 0`, and the output value is
the windowed sum divided by the pixel count
`(x_max - x_min + 1) * (y_max - y_min + 1)`, truncated toward zero (the
floating-point intermediate of line 162 is modelled as exact division
followed by truncation toward zero). -/
theorem C4_four_corner_truncating_average (W H : Nat) (T : Nat → Nat → Int)
    (R row col : Int) :
    blurValue W H T R row col = blurValueSpec W H T R row col := by
  unfold blurValue blurValueSpec
  rw [windowSum_eq_spec T _ (boundingBox_x_min_nonneg W H R row col)
      (boundingBox_y_min_nonneg W H R row col),
    pixelsInBox_eq_spec]

/-- C5: for every pixel `(row, col)` inside the image and every non-negative
radius `R`, the derived BoundingBox is the square of side `2R+1` centred on
the pixel clamped to `[0, W-1] × [0, H-1]` — its corners are the claimed
`max`/`min` expressions and its coordinate ranges are exactly the clamped
intervals — and the window pixel count of line 119 equals
`(x_max - x_min + 1) * (y_max - y_min + 1)`, which is the number of cells of
the clamped window. -/
theorem C5_boundingBox_clamped (W H : Nat) (R row col : Int)
    (hR : 0 ≤ R) (hc0 : 0 ≤ col) (hcW : col < (W : Int))
    (hr0 : 0 ≤ row) (hrH : row < (H : Int)) :
    (boundingBox W H R row col).x_min = max (col - R) 0 ∧
    (boundingBox W H R row col).x_max = min (col + R) ((W : Int) - 1) ∧
    (boundingBox W H R row col).y_min = max (row - R) 0 ∧
    (boundingBox W H R row col).y_max = min (row + R) ((H : Int) - 1) ∧
    (∀ x : Int,
      (boundingBox W H R row col).x_min ≤ x ∧
        x ≤ (boundingBox W H R row col).x_max ↔
      col - R ≤ x ∧ x ≤ col + R ∧ 0 ≤ x ∧ x ≤ (W : Int) - 1) ∧
    (∀ y : Int,
      (boundingBox W H R row col).y_min ≤ y ∧
        y ≤ (boundingBox W H R row col).y_max ↔
      row - R ≤ y ∧ y ≤ row + R ∧ 0 ≤ y ∧ y ≤ (H : Int) - 1) ∧
    pixelsInBox (boundingBox W H R row col) =
      ((boundingBox W H R row col).x_max -
        (boundingBox W H R row col).x_min + 1) *
      ((boundingBox W H R row col).y_max -
        (boundingBox W H R row col).y_min + 1) ∧
    pixelsInBox (boundingBox W H R row col) =
      (Finset.Icc (boundingBox W H R row col).x_min
          (boundingBox W H R row col).x_max).card *
      (Finset.Icc (boundingBox W H R row col).y_min
          (boundingBox W H R row col).y_max).card := by
  refine ⟨rfl, rfl, rfl, rfl, ?_, ?_, by unfold pixelsInBox; ring, ?_⟩
  · intro x
    simp only [boundingBox]
    omega
  · intro y
    simp only [boundingBox]
    omega
  · have hx : (boundingBox W H R row col).x_min ≤
        (boundingBox W H R row col).x_max + 1 := by
      simp only [boundingBox]; omega
    have hy : (boundingBox W H R row col).y_min ≤
        (boundingBox W H R row col).y_max + 1 := by
      simp only [boundingBox]; omega
    push_cast [Int.card_Icc_of_le _ _ hx, Int.card_Icc_of_le _ _ hy]
    unfold pixelsInBox
    ring

/-- Witness for C5 at a concrete instance: a 5×4 image, radius 1,
pixel `(row, col) = (2, 3)`. -/
theorem C5_boundingBox_clamped_witness :
    (boundingBox 5 4 1 2 3).x_min = max (3 - 1) 0 ∧
    (boundingBox 5 4 1 2 3).x_max = min (3 + 1) ((5 : Int) - 1) ∧
    (boundingBox 5 4 1 2 3).y_min = max (2 - 1) 0 ∧
    (boundingBox 5 4 1 2 3).y_max = min (2 + 1) ((4 : Int) - 1) ∧
    (∀ x : Int,
      (boundingBox 5 4 1 2 3).x_min ≤ x ∧ x ≤ (boundingBox 5 4 1 2 3).x_max ↔
      3 - 1 ≤ x ∧ x ≤ 3 + 1 ∧ 0 ≤ x ∧ x ≤ (5 : Int) - 1) ∧
    (∀ y : Int,
      (boundingBox 5 4 1 2 3).y_min ≤ y ∧ y ≤ (boundingBox 5 4 1 2 3).y_max ↔
      2 - 1 ≤ y ∧ y ≤ 2 + 1 ∧ 0 ≤ y ∧ y ≤ (4 : Int) - 1) ∧
    pixelsInBox (boundingBox 5 4 1 2 3) =
      ((boundingBox 5 4 1 2 3).x_max - (boundingBox 5 4 1 2 3).x_min + 1) *
      ((boundingBox 5 4 1 2 3).y_max - (boundingBox 5 4 1 2 3).y_min + 1) ∧
    pixelsInBox (boundingBox 5 4 1 2 3) =
      (Finset.Icc (boundingBox 5 4 1 2 3).x_min
          (boundingBox 5 4 1 2 3).x_max).card *
      (Finset.Icc (boundingBox 5 4 1 2 3).y_min
          (boundingBox 5 4 1 2 3).y_max).card :=
  C5_boundingBox_clamped 5 4 1 2 3 (by decide) (by decide) (by decide)
    (by decide) (by decide)

/-- C1: the claimed prefix-sum invariant fails on the code.  On a 1×1 image
whose only pixel value is 5, with the `malloc`ed table buffer happening to
hold 0, the cell `(0,0)` — which is also the bottom-right cell — still
holds 0 after both phases (neither phase ever writes column 0), while the
claimed inclusive prefix sum (= total channel sum) is 5. -/
theorem C1_prefix_sum_invariant_fails :
    satTable (fun _ _ => 0) (fun _ _ => 5) 0 0 = 0 ∧
    specPrefixSum (fun _ _ => 5) 0 0 = 5 := by
  constructor <;> decide

/-- C2: table-based average vs brute force, at the failing input.  1×1
image with pixel value 5, radius 0, zeroed `malloc` buffer: the table-based
output value is 0 while the brute-force clamped-window average is 5. -/
theorem C2_brute_force_equivalence_fails :
    blurValue 1 1 (satTable (fun _ _ => 0) (fun _ _ => 5)) 0 0 0 = 0 ∧
    bruteAvg 1 1 (fun _ _ => 5) 0 0 0 = 5 := by
  constructor <;> decide

/-- C3: phase 1 does not establish `table[r][0] = pixel[r][0]`.  With a
zeroed `malloc` buffer and every pixel equal to 5, the cell `(0,0)` after
phase 1 is 0, not 5: the loop of lines 78-87 starts at `col = 1` and no
statement ever writes column 0. -/
theorem C3_phase1_base_case_fails :
    phase1 (fun _ _ => 0) (fun _ _ => 5) 0 0 ≠ (5 : Int) := by
  decide

/-- C6: identity at R = 0 fails on the code.  On a 1×1 image with channel
value 5 and zeroed `malloc` buffers, the output pixel is 0, not 5: the
single-pixel window of pixel `(0,0)` reads only the never-written column-0
table cell. -/
theorem C6_identity_at_R0_fails :
    ImageGetPixel
      (mainProgram ⟨1, 1, fun _ _ _ => 5⟩ 0 (fun _ _ _ => 0)).2 0 0 0 = 0 ∧
    ImageGetPixel ⟨1, 1, fun _ _ _ => 5⟩ 0 0 0 = 5 := by
  constructor <;> decide

/-- C7: saturation at large R fails on the code.  On a 1×1 image with
channel value 5, radius `R = 1 ≥ max(W, H)` and zeroed `malloc` buffers,
the output pixel is 0 while the global channel average is 5. -/
theorem C7_saturation_fails :
    ImageGetPixel
      (mainProgram ⟨1, 1, fun _ _ _ => 5⟩ 1 (fun _ _ _ => 0)).2 0 0 0 = 0 ∧
    globalAverage 1 1 (fun _ _ => 5) = 5 := by
  constructor <;> decide

/-- C9: the windowed sum can be negative and the output out of `0..255`.
On a 1×1 all-zero image whose `malloc`ed table buffer holds -1 at cell
`(0,0)`, the windowed sum of pixel `(0,0)` at radius 0 is -1 (< 0) and the
truncated quotient is -1 (outside `0..255`; the C conversion of that value
to `unsigned char` is undefined behaviour). -/
theorem C9_window_sum_can_be_negative :
    windowSum (satTable (fun _ _ => (-1 : Int)) (fun _ _ => 0))
        (boundingBox 1 1 0 0 0) = -1 ∧
    blurValue 1 1 (satTable (fun _ _ => (-1 : Int)) (fun _ _ => 0)) 0 0 0
      = -1 := by
  constructor <;> decide

/-- Closed form of the table on a constant image with a zeroed buffer:
cell `(r, c)` holds `(r+1) * c * p` (column 0's pixels are missed, so only
`c` columns contribute per row). -/
theorem satTable_zero_const (p r c : Nat) :
    satTable (fun _ _ => 0) (fun _ _ => p) r c =
      ((r : Int) + 1) * c * p := by
  rw [satTable_eq]
  simp [Finset.sum_const, Finset.card_range]
  ring

/-- Counterexample to C8 as stated: the tables are C `int` (32-bit), and on
a valid 4096×4096 image with every channel value 255 the bottom-right table
cell — even with the most favourable (zero) initial buffer contents —
exceeds `INT_MAX = 2^31 - 1`, so the phase-2 accumulation overflows. -/
theorem C8_int_overflow_counterexample :
    (2 : Int) ^ 31 - 1 <
      satTable (fun _ _ => 0) (fun _ _ => 255) 4095 4095 := by
  rw [satTable_zero_const]
  norm_num

/-- C8 (amended): with 8-bit pixel values, 8-bit-range initial column-0
contents (as the intended initialization `table[r][0] = pixel[r][0]` would
give), and `255 × W × H ≤ 2^31 - 1`, every in-bounds table cell computed by
the two phases lies in `[0, 2^31 - 1]`, so the 32-bit `int` arithmetic
never overflows. -/
theorem C8_int_wide_enough_when_bounded (W H : Nat) (g : Nat → Nat → Int)
    (pix : Nat → Nat → Nat)
    (hg : ∀ r, 0 ≤ g r 0 ∧ g r 0 ≤ 255)
    (hp : ∀ r c, pix r c ≤ 255)
    (hWH : 255 * W * H ≤ 2 ^ 31 - 1)
    (r c : Nat) (hr : r < H) (hc : c < W) :
    0 ≤ satTable g pix r c ∧ satTable g pix r c ≤ 2 ^ 31 - 1 := by
  rw [satTable_eq]
  have hg0 : 0 ≤ ∑ i ∈ Finset.range (r + 1), g i 0 :=
    Finset.sum_nonneg fun i _ => (hg i).1
  have hp0 : (0 : Int) ≤
      ∑ i ∈ Finset.range (r + 1), ∑ j ∈ Finset.range c, (pix i (j + 1) : Int) :=
    Finset.sum_nonneg fun i _ =>
      Finset.sum_nonneg fun j _ => Int.natCast_nonneg _
  refine ⟨by linarith, ?_⟩
  have hgB : ∑ i ∈ Finset.range (r + 1), g i 0 ≤ ((r : Int) + 1) * 255 := by
    calc ∑ i ∈ Finset.range (r + 1), g i 0
        ≤ (Finset.range (r + 1)).card • (255 : Int) :=
          Finset.sum_le_card_nsmul _ _ _ fun i _ => (hg i).2
    _ = ((r : Int) + 1) * 255 := by
          simp [Finset.card_range, nsmul_eq_mul]
  have hpB : ∑ i ∈ Finset.range (r + 1), ∑ j ∈ Finset.range c,
      (pix i (j + 1) : Int) ≤ ((r : Int) + 1) * ((c : Int) * 255) := by
    calc ∑ i ∈ Finset.range (r + 1), ∑ j ∈ Finset.range c, (pix i (j + 1) : Int)
        ≤ (Finset.range (r + 1)).card • ((c : Int) * 255) := by
          refine Finset.sum_le_card_nsmul _ _ _ fun i _ => ?_
          calc ∑ j ∈ Finset.range c, (pix i (j + 1) : Int)
              ≤ (Finset.range c).card • (255 : Int) :=
                Finset.sum_le_card_nsmul _ _ _ fun j _ => by
                  exact_mod_cast hp i (j + 1)
          _ = (c : Int) * 255 := by simp [Finset.card_range, nsmul_eq_mul]
    _ = ((r : Int) + 1) * ((c : Int) * 255) := by
          simp [Finset.card_range, nsmul_eq_mul]
  have hrH : (r : Int) + 1 ≤ (H : Int) := by exact_mod_cast hr
  have hcW : (c : Int) + 1 ≤ (W : Int) := by exact_mod_cast hc
  have hprod : ((r : Int) + 1) * ((c : Int) + 1) ≤ (H : Int) * (W : Int) :=
    mul_le_mul hrH hcW (by positivity) (by positivity)
  have hWHn : 255 * W * H ≤ 2147483647 := by
    calc 255 * W * H ≤ 2 ^ 31 - 1 := hWH
    _ = 2147483647 := by norm_num
  have hWH' : (255 : Int) * W * H ≤ 2147483647 := by exact_mod_cast hWHn
  have h31 : (2 : Int) ^ 31 - 1 = 2147483647 := by norm_num
  rw [h31]
  nlinarith [hg0, hp0, hgB, hpB, hprod, hWH']

/-- Witness for the amended C8 at a concrete instance: a 1×1 image with
pixel value 5 and initial column-0 contents 5. -/
theorem C8_int_wide_enough_when_bounded_witness :
    0 ≤ satTable (fun _ _ => 5) (fun _ _ => 5) 0 0 ∧
    satTable (fun _ _ => 5) (fun _ _ => 5) 0 0 ≤ 2 ^ 31 - 1 :=
  C8_int_wide_enough_when_bounded 1 1 (fun _ _ => 5) (fun _ _ => 5)
    (fun _ => by norm_num) (fun _ _ => by norm_num)
    (by norm_num) 0 0 (by norm_num) (by norm_num)

/-- A `foldl` whose step preserves image dimensions preserves them
overall. -/
theorem foldl_preserves_dims {α : Type} (f : Image → α → Image)
    (h : ∀ img a, (f img a).width = img.width ∧ (f img a).height = img.height)
    (l : List α) (img : Image) :
    (l.foldl f img).width = img.width ∧
    (l.foldl f img).height = img.height := by
  induction l generalizing img with
  | nil => exact ⟨rfl, rfl⟩
  | cons a l ih =>
      simp only [List.foldl_cons]
      exact ⟨((ih (f img a)).1).trans (h img a).1,
        ((ih (f img a)).2).trans (h img a).2⟩

/-- The averaging pass only resizes nothing: it returns an image with the
same dimensions it was given. -/
theorem blurPass_preserves_dims (W H : Nat) (tbl : Nat → Nat → Nat → Int)
    (R : Int) (img : Image) :
    (blurPass W H tbl R img).width = img.width ∧
    (blurPass W H tbl R img).height = img.height := by
  unfold blurPass
  refine foldl_preserves_dims _ (fun acc₁ row => ?_) _ img
  refine foldl_preserves_dims _ (fun acc₂ col => ?_) _ acc₁
  refine foldl_preserves_dims _ (fun acc₃ color => ?_) _ acc₂
  exact ⟨rfl, rfl⟩

/-- C10: the transform never modifies the input image — in the embedding
every access to `img_in` is a read through `ImageGetPixel` and every write
through `ImageSetPixel` targets the image freshly created by
`ImageCreate(W, H)` — and the output image has exactly the input's width
and height. -/
theorem C10_input_untouched_output_dims (img : Image) (R : Int)
    (g : Nat → Nat → Nat → Int) :
    (mainProgram img R g).1 = img ∧
    (mainProgram img R g).2.width = img.width ∧
    (mainProgram img R g).2.height = img.height := by
  refine ⟨rfl, ?_, ?_⟩
  · exact (blurPass_preserves_dims img.width img.height _ R
      (ImageCreate img.width img.height)).1
  · exact (blurPass_preserves_dims img.width img.height _ R
      (ImageCreate img.width img.height)).2
